import Mathlib

/-!
Verification of the niar cxxrtl driver (src/niar/cxxrtl.py) and of the
incremental command-runner core it drives, as described by the design
specification.  The driver is embedded shallowly: file paths are modelled
structurally (a location plus a stem and an extension, mirroring how the
driver builds every path it uses), the registered build actions of each
stage are modelled as explicit lists, and the command-runner core — whose
source is not part of the repository snapshot — is modelled from the spec
(Validity Oracle, Run Record, force bypass, Invocation Ledger export).
-/

namespace Niar

/-- Location of a file used by the driver: either the build directory
(np.path.build(...)) or a path under the cxxrtl source directory
(np.path("cxxrtl"), with a possibly empty list of subdirectory names). -/
inductive Loc where
  | build : Loc
  | cxxrtl (sub : List String) : Loc
deriving DecidableEq, Repr

/-- Structural model of a file path as the driver constructs it: a
location, a stem and an extension.  The driver only ever builds paths as
a directory joined with stem-dot-extension (the extension is empty for
the final executables). -/
structure SPath where
  loc : Loc
  stem : String
  ext : String
deriving DecidableEq, Repr

/-- Textual form of a location relative to the project root. -/
def locStr : Loc → String
  | .build => "build"
  | .cxxrtl sub => "cxxrtl" ++ String.join (sub.map (fun s => "/" ++ s))

/-- Textual form of a path relative to the project root. -/
def pathStrRel (p : SPath) : String :=
  locStr p.loc ++ "/" ++ p.stem ++ (if p.ext = "" then "" else "." ++ p.ext)

/-- Textual form of a path as it appears in command lines (absolute,
rooted at the project path). -/
def pathStr (root : String) (p : SPath) : String :=
  root ++ "/" ++ pathStrRel p

/-- Model of the class _Optimize of cxxrtl.py, lines 31-46. -/
inductive _Optimize where
  | none : _Optimize
  | rtl : _Optimize
  | app : _Optimize
  | both : _Optimize
deriving DecidableEq, Repr

/-- Property opt_rtl of _Optimize (cxxrtl.py lines 40-42). -/
def _Optimize.opt_rtl : _Optimize → Bool
  | .rtl => true
  | .both => true
  | _ => false

/-- Property opt_app of _Optimize (cxxrtl.py lines 44-46). -/
def _Optimize.opt_app : _Optimize → Bool
  | .app => true
  | .both => true
  | _ => false

/-- Parsed command-line arguments of the cxxrtl subcommand
(cxxrtl.py lines 49-95). -/
structure Args where
  target : String
  compile : Bool
  optimize : _Optimize
  debug : Bool
  vcd : Option String
  force : Bool
deriving DecidableEq, Repr

/-- Static data of a project as seen by main (cxxrtl.py line 98): project
root and name, clock frequency of the selected platform, whether the
platform uses zig, the yosys data directory, and the source files found
by the three globs over the cxxrtl directory, each given as a
subdirectory list and a stem. -/
structure Driver where
  root : String
  name : String
  clk : Nat
  usesZig : Bool
  yosysDataDir : String
  ccFiles : List (List String × String)
  hFiles : List (List String × String)
  zigFiles : List (List String × String)
deriving DecidableEq, Repr

/-- Value of CXXFLAGS (cxxrtl.py lines 20-28). -/
def CXXFLAGS : List String :=
  ["-std=c++17", "-g", "-pedantic", "-Wall", "-Wextra",
   "-Wno-zero-length-array", "-Wno-unused-parameter"]

/-- Path of the written RTLIL file (cxxrtl.py line 108). -/
def ilPath (np : Driver) : SPath := ⟨.build, np.name, "il"⟩

/-- Path of the yosys script (cxxrtl.py line 114). -/
def yosysScriptPath (np : Driver) : SPath := ⟨.build, np.name ++ "-cxxrtl", "ys"⟩

/-- Path of the cxxrtl-generated C++ file (cxxrtl.py line 113). -/
def cxxrtlCcPath (np : Driver) : SPath := ⟨.build, np.name, "cc"⟩

/-- Header dependencies: glob of cxxrtl directory for .h files
(cxxrtl.py line 134). -/
def depfs (np : Driver) : List SPath :=
  np.hFiles.map (fun x => ⟨.cxxrtl x.1, x.2, "h"⟩)

/-- The cc_odep_paths mapping (cxxrtl.py lines 133-137): each C++ source
paired with its object-file path and its header dependencies.  The object
path uses only the stem of the source, reproducing the XXX remark of line
136 that cxxrtl/a.cc and cxxrtl/dir/a.cc are not distinguished. -/
def ccOdepPaths (np : Driver) : List (SPath × SPath × List SPath) :=
  (cxxrtlCcPath np, ⟨.build, np.name, "o"⟩, []) ::
    np.ccFiles.map (fun x => (⟨.cxxrtl x.1, x.2, "cc"⟩, ⟨.build, x.2, "o"⟩, depfs np))

/-- Value of cxxflags after lines 139-148 of cxxrtl.py. -/
def cxxflags (np : Driver) (args : Args) : List String :=
  CXXFLAGS ++ ["-DCLOCK_HZ=" ++ toString np.clk]
    ++ (if args.optimize.opt_rtl then ["-O3"] else ["-O0"])
    ++ (if args.debug then ["-g"] else [])
    ++ (if np.usesZig then
          ["-DCXXRTL_INCLUDE_CAPI_IMPL", "-DCXXRTL_INCLUDE_VCD_CAPI_IMPL"]
        else [])

/-- Include flags of the compile command (cxxrtl.py lines 154-155). -/
def includeFlags (np : Driver) : List String :=
  ["-I" ++ np.root ++ "/build",
   "-I" ++ np.yosysDataDir ++ "/include/backends/cxxrtl/runtime"]

/-- Compile command registered for one source file (cxxrtl.py lines
150-162): a c++ invocation, prefixed with zig when the platform uses
zig. -/
def compileCmd (np : Driver) (args : Args) (cc o : SPath) : List String :=
  (if np.usesZig then ["zig"] else []) ++
    ["c++"] ++ cxxflags np args ++ includeFlags np ++
    ["-c", pathStr np.root cc, "-o", pathStr np.root o]

/-- Operation of an action: an external process with its argv, or an
in-process callback (the rtlil_to_cc closure). -/
inductive Op where
  | proc (argv : List String) : Op
  | call : Op
deriving DecidableEq, Repr

/-- One registered build action: operation, declared inputs, declared
output, optional working-directory override, and the force flag the
runner was constructed with (cxxrtl.py line 105 passes args.force to
every registration). -/
structure Action where
  op : Op
  infs : List SPath
  outf : SPath
  chdir : Option String
  force : Bool
deriving DecidableEq, Repr

/-- First stage (elaboration, cxxrtl.py lines 124-130): the single
rtlil_to_cc callback action. -/
def stage1 (np : Driver) (args : Args) : List Action :=
  [⟨.call, [ilPath np, yosysScriptPath np], cxxrtlCcPath np, Option.none, args.force⟩]

/-- Second stage (compilation, cxxrtl.py lines 150-163): one compile
action per entry of cc_odep_paths. -/
def stage2 (np : Driver) (args : Args) : List Action :=
  (ccOdepPaths np).map (fun x =>
    ⟨.proc (compileCmd np args x.1 x.2.1), x.1 :: x.2.2, x.2.1, Option.none, args.force⟩)

/-- Object paths of all compile actions (cxxrtl.py line 178). -/
def ccOPaths (np : Driver) : List SPath :=
  (ccOdepPaths np).map (fun x => x.2.1)

/-- Path of the final executable (cxxrtl.py line 177). -/
def exePath : SPath := ⟨.build, "cxxrtl", ""⟩

/-- Output of the zig build (cxxrtl.py line 191). -/
def zigOutf : SPath := ⟨.cxxrtl ["zig-out", "bin"], "cxxrtl", ""⟩

/-- Zig source files (glob of cxxrtl.py line 193). -/
def zigFilesPaths (np : Driver) : List SPath :=
  np.zigFiles.map (fun x => ⟨.cxxrtl x.1, x.2, "zig"⟩)

/-- Argv of the zig link action (cxxrtl.py lines 180-190). -/
def zigLinkCmd (np : Driver) (args : Args) : List String :=
  ["zig", "build",
   "-Dclock_hz=" ++ toString np.clk,
   "-Dyosys_data_dir=" ++ np.yosysDataDir] ++
    (ccOPaths np).map (fun p => "-Dcxxrtl_o_path=../" ++ pathStrRel p) ++
    (if args.optimize.opt_app then ["-Doptimize=ReleaseFast"] else [])

/-- Argv of the c++ link action in the non-zig branch (cxxrtl.py lines
199-205); it reuses cxxflags. -/
def cppLinkCmd (np : Driver) (args : Args) : List String :=
  ["c++"] ++ cxxflags np args ++ (ccOPaths np).map (pathStr np.root) ++
    ["-o", pathStr np.root exePath]

/-- Third stage (link, cxxrtl.py lines 177-209): the zig build action or
the c++ link action. -/
def stage3 (np : Driver) (args : Args) : List Action :=
  if np.usesZig then
    [⟨.proc (zigLinkCmd np args), ccOPaths np ++ zigFilesPaths np, zigOutf,
      some "cxxrtl", args.force⟩]
  else
    [⟨.proc (cppLinkCmd np args), ccOPaths np, exePath, Option.none, args.force⟩]

/-- The three batches of actions registered by main, in order; a run()
call separates consecutive batches (cxxrtl.py lines 130, 175, 196/209). -/
def batches (np : Driver) (args : Args) : List (List Action) :=
  [stage1 np args, stage2 np args, stage3 np args]

/-- Argv of the final direct-run invocation (cxxrtl.py lines 212-214). -/
def runCmdArgv (np : Driver) (args : Args) : List String :=
  [pathStr np.root exePath] ++
    (match args.vcd with
     | some v => ["--vcd", v]
     | Option.none => [])

/-- Direct-run invocations performed after the build stages (cxxrtl.py
lines 211-215): one uncached invocation tagged "run" unless the
compile-only flag was given. -/
def directRuns (np : Driver) (args : Args) : List (List String × String) :=
  if args.compile then [] else [(runCmdArgv np args, "run")]

/-- Cache-irrelevant shape of an action: everything but its operation. -/
def shape (a : Action) : List SPath × SPath × Option String × Bool :=
  (a.infs, a.outf, a.chdir, a.force)

/-- Shapes of all registered actions of all batches. -/
def shapes (np : Driver) (args : Args) : List (List (List SPath × SPath × Option String × Bool)) :=
  (batches np args).map (List.map shape)

/-- Concrete driver exhibiting the stem collision of the XXX remark at
cxxrtl.py line 136: sources cxxrtl/a.cc and cxxrtl/d/a.cc. -/
def d1 : Driver :=
  ⟨"/proj", "top", 8, false, "/yosys", [([], "a"), (["d"], "a")], [], []⟩

/-- Default argument values used by the concrete evaluations. -/
def a1 : Args := ⟨"T", false, .rtl, false, Option.none, false⟩

/-! Model of the incremental command-runner core.  Its source is not part
of the repository snapshot (only the driver, its caller, is), so the core
is modelled from the spec: the Run Record, the Validity Oracle of section
4.1, the sequential executor of section 4.2 and the force bypass. -/

/-- Association-list lookup keyed on the first component. -/
def lookupA {β : Type} (l : List (SPath × β)) (p : SPath) : Option β :=
  (l.find? (fun e => decide (e.1 = p))).map (fun e => e.2)

/-- Modelled from the spec: one Run Record entry (section 3, Run Record):
the declared inputs at the time of success, each with the fingerprint
(modification time, absent when the file was absent) observed then. -/
structure RecEntry where
  fps : List (SPath × Option Nat)
deriving DecidableEq, Repr

/-- Modelled from the spec: the orchestrator state — a logical clock used
as modification time, the filesystem (map from path to modification
time), and the Run Record (map from output path to its entry). -/
structure CRState where
  now : Nat
  fs : List (SPath × Nat)
  record : List (SPath × RecEntry)
deriving DecidableEq, Repr

/-- Modification time of a path. -/
def fsGet (s : CRState) (p : SPath) : Option Nat := lookupA s.fs p

/-- Run Record entry of an output path. -/
def recGet (s : CRState) (p : SPath) : Option RecEntry := lookupA s.record p

/-- Fingerprints of a list of inputs in a filesystem. -/
def fingerprints (fs : List (SPath × Nat)) (infs : List SPath) :
    List (SPath × Option Nat) :=
  infs.map (fun p => (p, lookupA fs p))

/-- Boolean test that two path lists contain the same paths (the spec
compares recorded and declared inputs by path set). -/
def sameSetB (l₁ l₂ : List SPath) : Bool :=
  l₁.all (fun p => l₂.any (fun q => decide (q = p))) &&
    l₂.all (fun p => l₁.any (fun q => decide (q = p)))

/-- Recorded fingerprint of one input inside a Run Record entry. -/
def fpLookup (fps : List (SPath × Option Nat)) (p : SPath) : Option (Option Nat) :=
  (fps.find? (fun e => decide (e.1 = p))).map (fun e => e.2)

/-- Modelled from the spec: the Validity Oracle of section 4.1.  An
action is Stale when it is forced, when its output is missing, when no
Run Record exists for its output, when the recorded input set differs
from the declared one, when any declared input's current fingerprint
differs from the recorded one, or when the output's modification time is
older than that of some input; otherwise it is Fresh. -/
def isStale (s : CRState) (a : Action) : Bool :=
  a.force ||
    match fsGet s a.outf with
    | Option.none => true
    | some tOut =>
      match recGet s a.outf with
      | Option.none => true
      | some e =>
        !sameSetB (e.fps.map (fun x => x.1)) a.infs ||
          !(a.infs.all (fun p => decide (fpLookup e.fps p = some (fsGet s p)))) ||
          (a.infs.any (fun p =>
            match fsGet s p with
            | some tIn => decide (tOut < tIn)
            | Option.none => false))

/-- Modelled from the spec: successful execution of an action writes its
output (with the current clock as modification time) and updates the Run
Record for that output with fresh fingerprints of the declared inputs
(section 4.2); the clock then advances. -/
def execA (s : CRState) (a : Action) : CRState :=
  ⟨s.now + 1, (a.outf, s.now) :: s.fs,
   (a.outf, ⟨fingerprints ((a.outf, s.now) :: s.fs) a.infs⟩) :: s.record⟩

/-- Modelled from the spec: the executor's treatment of one registered
action — Stale actions execute, Fresh actions are skipped with no side
effects. -/
def stepA (s : CRState) (a : Action) : CRState :=
  if isStale s a then execA s a else s

/-- Modelled from the spec: run() executes the registered Stale actions
of a stage in order. -/
def runA : CRState → List Action → CRState
  | s, [] => s
  | s, a :: rest => runA (stepA s a) rest

/-- Number of actions a run of the stage actually executes. -/
def execCount : CRState → List Action → Nat
  | _, [] => 0
  | s, a :: rest => (if isStale s a then 1 else 0) + execCount (stepA s a) rest

/-! Model of the compilation-database export (cxxrtl.py lines 165-173). -/

/-- JSON values as far as the export needs them. -/
inductive J where
  | str (s : String) : J
  | arr (elems : List J) : J
  | obj (fields : List (String × J)) : J

/-- The compilation-database export of cxxrtl.py lines 165-173: one
object per ledger entry, with the fields directory (the project path),
file, and arguments (the exact argv), in ledger order.  The ledger
itself (cr.compile_commands) is modelled from the spec as an
insertion-ordered association list from file to argv. -/
def exportDB (root : String) (ledger : List (String × List String)) : J :=
  .arr (ledger.map (fun e =>
    .obj [("directory", .str root), ("file", .str e.1),
          ("arguments", .arr (e.2.map .str))]))

/-! Model of add_arguments (cxxrtl.py lines 49-62), target option only. -/

/-- Configuration of the target option (-t) as add_arguments builds it:
its choices, whether it is required, and its default value. -/
structure TargetOpt where
  choices : List String
  required : Bool
  dflt : Option String
deriving DecidableEq, Repr

/-- Model of add_arguments, cxxrtl.py lines 49-62: the sorted target
class names are matched; an empty list raises RuntimeError, otherwise
the option's choices are the sorted names, it is required exactly when
more than one name exists, and with a single name that name is the
default. -/
def add_arguments (targets : List String) : Except String TargetOpt :=
  match List.insertionSort (fun a b => a ≤ b) targets with
  | [] => .error "no cxxrtl targets defined"
  | first :: rest =>
    .ok ⟨first :: rest, !rest.isEmpty, if rest.isEmpty then some first else Option.none⟩

/-! Model of _make_absolute (cxxrtl.py lines 218-224). -/

/-- Model of a pathlib path: an absolute flag and the component list. -/
structure PPath where
  absFlag : Bool
  comps : List String
deriving DecidableEq, Repr

/-- Componentwise computable test that the first list is an initial
segment of the second. -/
def isPre : List String → List String → Bool
  | [], _ => true
  | _ :: _, [] => false
  | a :: as, b :: bs => decide (a = b) && isPre as bs

/-- Model of pathlib's Path.relative_to as used at cxxrtl.py line 221:
it succeeds exactly when the base is an initial segment of the path
(same absoluteness), returning the remaining components as a relative
path, and raises ValueError otherwise. -/
def relative_to (p base : PPath) : Except Unit PPath :=
  if p.absFlag = base.absFlag && isPre base.comps p.comps then
    .ok ⟨false, p.comps.drop base.comps.length⟩
  else
    .error ()

/-- Model of _make_absolute (cxxrtl.py lines 218-224): an absolute path
is replaced by its form relative to the current working directory,
raising AssertionError when relative_to raises ValueError; a relative
path is returned unchanged. -/
def _make_absolute (cwd : PPath) (path : PPath) : Except String PPath :=
  if path.absFlag then
    match relative_to path cwd with
    | .ok q => .ok q
    | .error _ => .error "path must be relative to cwd for builtin-yosys to access it"
  else
    .ok path

/-! Theorems. -/

/-- Claim C1: distinct registered actions are claimed to have distinct
declared output paths, and in particular distinct .cc sources under the
cxxrtl directory are claimed to yield compile actions with distinct
object outputs.  Evaluating the compilation stage on the failing input
d1 (sources cxxrtl/a.cc and cxxrtl/d/a.cc) shows three pairwise distinct
compile actions (their input lists are pairwise distinct) whose declared
outputs are not pairwise distinct: both stem-a sources map to build/a.o,
as the XXX remark at cxxrtl.py line 136 concedes. -/
theorem c1_duplicate_object_outputs :
    (stage2 d1 a1).length = 3 ∧
    ¬ ((stage2 d1 a1).map Action.outf).Nodup ∧
    ((stage2 d1 a1).map Action.infs).Nodup := by
  decide

/-- Claim C2: the exported compilation database is a JSON array with one
element per recorded invocation in insertion order, each element an
object with exactly the keys directory, file and arguments, where
directory is the project path and arguments the exact argv. -/
theorem c2_compile_commands_export (root : String)
    (ledger : List (String × List String)) :
    ∃ elems : List J, exportDB root ledger = .arr elems ∧
      elems.length = ledger.length ∧
      ∀ i (hi : i < ledger.length) (hi2 : i < elems.length),
        elems.get ⟨i, hi2⟩ =
          .obj [("directory", .str root), ("file", .str (ledger.get ⟨i, hi⟩).1),
                ("arguments", .arr ((ledger.get ⟨i, hi⟩).2.map .str))] := by
  refine ⟨_, rfl, by simp [exportDB], ?_⟩
  intro i hi hi2
  simp [exportDB]

/-- Witness for C2 at a concrete ledger. -/
theorem c2_witness :
    ∃ elems : List J, exportDB "/proj" [("a.cc", ["c++", "-c", "a.cc"])] = .arr elems ∧
      elems.length = [("a.cc", ["c++", "-c", "a.cc"])].length ∧
      ∀ i (hi : i < [("a.cc", ["c++", "-c", "a.cc"])].length)
        (hi2 : i < elems.length),
        elems.get ⟨i, hi2⟩ =
          .obj [("directory", .str "/proj"),
                ("file", .str ([("a.cc", ["c++", "-c", "a.cc"])].get ⟨i, hi⟩).1),
                ("arguments", .arr (([("a.cc", ["c++", "-c", "a.cc"])].get ⟨i, hi⟩).2.map .str))] :=
  c2_compile_commands_export "/proj" [("a.cc", ["c++", "-c", "a.cc"])]

/-- Claim C5: the driver performs the uncached direct-run invocation,
tagged "run", exactly when the compile-only flag is absent. -/
theorem c5_direct_run (np : Driver) (args : Args) :
    (directRuns np args = [] ↔ args.compile = true) ∧
    ∀ e ∈ directRuns np args, e.2 = "run" ∧ e.1 = runCmdArgv np args := by
  cases h : args.compile <;> simp [directRuns, h]

/-- Witness for C5 at the concrete driver d1. -/
theorem c5_witness :
    directRuns d1 a1 = [(runCmdArgv d1 a1, "run")] := by
  have h := (c5_direct_run d1 a1).1
  simp [directRuns, a1]

/-- Claim C9: add_arguments fails with the RuntimeError message exactly
when no target is defined; otherwise the target option's choices are the
sorted class names, it is required exactly when more than one target
exists, and with exactly one target that target's name is the default. -/
theorem c9_target_option (targets : List String) :
    (add_arguments targets = .error "no cxxrtl targets defined" ↔ targets = []) ∧
    (∀ opt, add_arguments targets = .ok opt →
      opt.choices = List.insertionSort (fun a b => a ≤ b) targets ∧
      opt.choices.Sorted (fun a b => a ≤ b) ∧
      opt.choices.Perm targets ∧
      (opt.required = true ↔ 1 < targets.length) ∧
      (∀ t, targets = [t] → opt.dflt = some t)) := by
  have hperm : (List.insertionSort (fun a b : String => a ≤ b) targets).Perm targets :=
    List.perm_insertionSort _ targets
  have hlen : (List.insertionSort (fun a b : String => a ≤ b) targets).length
      = targets.length := hperm.length_eq
  have hsorted : (List.insertionSort (fun a b : String => a ≤ b) targets).Sorted
      (fun a b => a ≤ b) := List.sorted_insertionSort _ targets
  cases hst : List.insertionSort (fun a b : String => a ≤ b) targets with
  | nil =>
    rw [hst] at hlen
    have ht : targets = [] := List.length_eq_zero.mp hlen.symm
    constructor
    · simp [add_arguments, hst, ht]
    · intro opt hopt
      rw [add_arguments, hst] at hopt
      exact absurd hopt (by simp)
  | cons first rest =>
    rw [hst] at hlen hperm hsorted
    constructor
    · rw [add_arguments, hst]
      constructor
      · intro h
        exact absurd h (by simp)
      · intro ht
        rw [ht] at hlen
        simp at hlen
    · intro opt hopt
      rw [add_arguments, hst] at hopt
      have hopt2 : opt = ⟨first :: rest, !rest.isEmpty,
          if rest.isEmpty then some first else Option.none⟩ := by
        cases hopt
        rfl
      subst hopt2
      refine ⟨rfl, hsorted, hperm, ?_, ?_⟩
      · simp only [← hlen, List.length_cons]
        cases rest <;> simp
      · intro t ht
        subst ht
        have hst2 : [t] = first :: rest := by rw [← hst]; rfl
        have h1 : t = first := (List.cons.inj hst2).1
        have h2 : ([] : List String) = rest := (List.cons.inj hst2).2
        rw [← h2, h1]
        simp

/-- Claim C10: the _make_absolute helper never returns an absolute path,
returns relative inputs unchanged, and on absolute inputs succeeds with
the path made relative to the working directory, raising AssertionError
exactly when the path is not under the working directory. -/
theorem c10_make_absolute (cwd path : PPath) (hcwd : cwd.absFlag = true) :
    (∀ q, _make_absolute cwd path = .ok q → q.absFlag = false) ∧
    (path.absFlag = false → _make_absolute cwd path = .ok path) ∧
    (path.absFlag = true →
      ((_make_absolute cwd path =
          .error "path must be relative to cwd for builtin-yosys to access it") ↔
        isPre cwd.comps path.comps = false) ∧
      (isPre cwd.comps path.comps = true →
        _make_absolute cwd path = .ok ⟨false, path.comps.drop cwd.comps.length⟩)) := by
  cases hp : path.absFlag
  · refine ⟨?_, ?_, ?_⟩
    · intro q hq
      simp [_make_absolute, hp] at hq
      rw [← hq]
      exact hp
    · intro _
      simp [_make_absolute, hp]
    · intro h
      exact absurd h (by simp)
  · cases hpre : isPre cwd.comps path.comps
    · refine ⟨?_, ?_, ?_⟩
      · intro q hq
        simp [_make_absolute, relative_to, hp, hcwd, hpre] at hq
      · intro h
        exact absurd h (by simp)
      · intro _
        simp [_make_absolute, relative_to, hp, hcwd, hpre]
    · refine ⟨?_, ?_, ?_⟩
      · intro q hq
        have h2 : _make_absolute cwd path =
            .ok ⟨false, path.comps.drop cwd.comps.length⟩ := by
          simp [_make_absolute, relative_to, hp, hcwd, hpre]
        rw [h2] at hq
        cases hq
        rfl
      · intro h
        exact absurd h (by simp)
      · intro _
        refine ⟨by simp [_make_absolute, relative_to, hp, hcwd, hpre], ?_⟩
        intro _
        simp [_make_absolute, relative_to, hp, hcwd, hpre]

/-- Witness for C9: with the single target "A" the option defaults to
"A" and parsing succeeds. -/
theorem c9_witness :
    add_arguments ["A"] = .ok ⟨["A"], false, some "A"⟩ ∧
    (⟨["A"], false, some "A"⟩ : TargetOpt).dflt = some "A" :=
  ⟨rfl, ((c9_target_option ["A"]).2 ⟨["A"], false, some "A"⟩ rfl).2.2.2.2 "A" rfl⟩

/-- Witness for C10: the absolute path a/b under the working directory a
becomes the relative path b. -/
theorem c10_witness :
    _make_absolute ⟨true, ["a"]⟩ ⟨true, ["a", "b"]⟩ = .ok ⟨false, ["b"]⟩ :=
  ((c10_make_absolute ⟨true, ["a"]⟩ ⟨true, ["a", "b"]⟩ rfl).2.2 rfl).2 rfl

/-- Claim C8: every compile action's argv contains the -g flag of
CXXFLAGS whatever the arguments are, and turning the debug flag on only
inserts one further "-g" into the same argv. -/
theorem c8_debug_flag (np : Driver) (args : Args) :
    (∀ a ∈ stage2 np args, ∃ cc o, a.op = .proc (compileCmd np args cc o)) ∧
    (∀ cc o : SPath, "-g" ∈ compileCmd np args cc o) ∧
    (∀ cc o : SPath, ∃ xs ys,
      compileCmd np {args with debug := false} cc o = xs ++ ys ∧
      compileCmd np {args with debug := true} cc o = xs ++ "-g" :: ys) := by
  refine ⟨?_, ?_, ?_⟩
  · intro a ha
    simp only [stage2, List.mem_map] at ha
    obtain ⟨x, hx, rfl⟩ := ha
    exact ⟨x.1, x.2.1, rfl⟩
  · intro cc o
    cases h : np.usesZig <;> simp [compileCmd, cxxflags, CXXFLAGS, h]
  · intro cc o
    refine ⟨(if np.usesZig then ["zig"] else []) ++ ["c++"] ++ CXXFLAGS ++
      ["-DCLOCK_HZ=" ++ toString np.clk] ++
      (if args.optimize.opt_rtl then ["-O3"] else ["-O0"]),
      (if np.usesZig then
        ["-DCXXRTL_INCLUDE_CAPI_IMPL", "-DCXXRTL_INCLUDE_VCD_CAPI_IMPL"] else []) ++
      includeFlags np ++ ["-c", pathStr np.root cc, "-o", pathStr np.root o],
      ?_, ?_⟩ <;>
    cases args <;> simp [compileCmd, cxxflags]

/-- Witness for C8 at the concrete driver d1. -/
theorem c8_witness : "-g" ∈ compileCmd d1 a1 (cxxrtlCcPath d1) exePath :=
  (c8_debug_flag d1 a1).2.1 (cxxrtlCcPath d1) exePath

/-- Extensions of the entries of cc_odep_paths: sources are .cc files,
objects are .o files, dependencies are .h files. -/
theorem mem_ccOdepPaths_ext {np : Driver} {x : SPath × SPath × List SPath}
    (hx : x ∈ ccOdepPaths np) :
    x.1.ext = "cc" ∧ x.2.1.ext = "o" ∧ ∀ p ∈ x.2.2, p.ext = "h" := by
  simp only [ccOdepPaths, List.mem_cons, List.mem_map] at hx
  rcases hx with rfl | ⟨y, hy, rfl⟩
  · exact ⟨rfl, rfl, by simp⟩
  · refine ⟨rfl, rfl, ?_⟩
    intro p hp
    simp only [depfs, List.mem_map] at hp
    obtain ⟨z, hz, rfl⟩ := hp
    rfl

/-- Output extension of the elaboration stage action. -/
theorem stage1_out {np : Driver} {args : Args} {a : Action}
    (ha : a ∈ stage1 np args) : a.outf.ext = "cc" := by
  simp only [stage1, List.mem_singleton] at ha
  subst ha
  rfl

/-- Input extensions of the elaboration stage action. -/
theorem stage1_infs {np : Driver} {args : Args} {a : Action}
    (ha : a ∈ stage1 np args) : ∀ p ∈ a.infs, p.ext = "il" ∨ p.ext = "ys" := by
  simp only [stage1, List.mem_singleton] at ha
  subst ha
  intro p hp
  simp only [List.mem_cons, List.not_mem_nil, or_false] at hp
  rcases hp with rfl | rfl
  · exact Or.inl rfl
  · exact Or.inr rfl

/-- Output extension of every compilation stage action. -/
theorem stage2_out {np : Driver} {args : Args} {a : Action}
    (ha : a ∈ stage2 np args) : a.outf.ext = "o" := by
  simp only [stage2, List.mem_map] at ha
  obtain ⟨x, hx, rfl⟩ := ha
  exact (mem_ccOdepPaths_ext hx).2.1

/-- Input extensions of every compilation stage action. -/
theorem stage2_infs {np : Driver} {args : Args} {a : Action}
    (ha : a ∈ stage2 np args) : ∀ p ∈ a.infs, p.ext = "cc" ∨ p.ext = "h" := by
  simp only [stage2, List.mem_map] at ha
  obtain ⟨x, hx, rfl⟩ := ha
  intro p hp
  rcases List.mem_cons.mp hp with rfl | h
  · exact Or.inl ((mem_ccOdepPaths_ext hx).1)
  · exact Or.inr ((mem_ccOdepPaths_ext hx).2.2 p h)

/-- Output extension of the link stage action. -/
theorem stage3_out {np : Driver} {args : Args} {a : Action}
    (ha : a ∈ stage3 np args) : a.outf.ext = "" := by
  simp only [stage3] at ha
  cases h : np.usesZig <;> rw [h] at ha <;> simp at ha <;> subst ha <;> rfl

/-- Input extensions of the link stage action. -/
theorem stage3_infs {np : Driver} {args : Args} {a : Action}
    (ha : a ∈ stage3 np args) : ∀ p ∈ a.infs, p.ext = "o" ∨ p.ext = "zig" := by
  simp only [stage3] at ha
  cases h : np.usesZig <;> rw [h] at ha <;> simp at ha <;> subst ha <;> intro p hp
  · simp only [ccOPaths, List.mem_map] at hp
    obtain ⟨x, hx, rfl⟩ := hp
    exact Or.inl (mem_ccOdepPaths_ext hx).2.1
  · rcases List.mem_append.mp hp with h1 | h1
    · simp only [ccOPaths, List.mem_map] at h1
      obtain ⟨x, hx, rfl⟩ := h1
      exact Or.inl (mem_ccOdepPaths_ext hx).2.1
    · simp only [zigFilesPaths, List.mem_map] at h1
      obtain ⟨z, hz, rfl⟩ := h1
      exact Or.inr rfl

/-- Claim C4: whenever the declared output of one registered action
appears among the declared inputs of another, the producing action
belongs to a strictly earlier batch, i.e. its run() call completes
before the consumer is registered. -/
theorem c4_staging (np : Driver) (args : Args) (i j : Nat)
    (hi : i < (batches np args).length) (hj : j < (batches np args).length)
    (a b : Action) (ha : a ∈ (batches np args).get ⟨i, hi⟩)
    (hb : b ∈ (batches np args).get ⟨j, hj⟩)
    (h : a.outf ∈ b.infs) : i < j := by
  have hl : (batches np args).length = 3 := rfl
  rw [hl] at hi hj
  have hi3 : i = 0 ∨ i = 1 ∨ i = 2 := by omega
  have hj3 : j = 0 ∨ j = 1 ∨ j = 2 := by omega
  rcases hi3 with rfl | rfl | rfl <;> rcases hj3 with rfl | rfl | rfl
  · have hout : a.outf.ext = "cc" := stage1_out ha
    rcases stage1_infs hb a.outf h with h1 | h1 <;>
      rw [hout] at h1 <;> exact absurd h1 (by decide)
  · decide
  · have hout : a.outf.ext = "cc" := stage1_out ha
    rcases stage3_infs hb a.outf h with h1 | h1 <;>
      rw [hout] at h1 <;> exact absurd h1 (by decide)
  · have hout : a.outf.ext = "o" := stage2_out ha
    rcases stage1_infs hb a.outf h with h1 | h1 <;>
      rw [hout] at h1 <;> exact absurd h1 (by decide)
  · have hout : a.outf.ext = "o" := stage2_out ha
    rcases stage2_infs hb a.outf h with h1 | h1 <;>
      rw [hout] at h1 <;> exact absurd h1 (by decide)
  · decide
  · have hout : a.outf.ext = "" := stage3_out ha
    rcases stage1_infs hb a.outf h with h1 | h1 <;>
      rw [hout] at h1 <;> exact absurd h1 (by decide)
  · have hout : a.outf.ext = "" := stage3_out ha
    rcases stage2_infs hb a.outf h with h1 | h1 <;>
      rw [hout] at h1 <;> exact absurd h1 (by decide)
  · have hout : a.outf.ext = "" := stage3_out ha
    rcases stage3_infs hb a.outf h with h1 | h1 <;>
      rw [hout] at h1 <;> exact absurd h1 (by decide)

/-- Witness for C4: the generated C++ file is produced in batch 0 and
consumed by a compile action of batch 1. -/
theorem c4_witness : (0 : Nat) < 1 :=
  c4_staging d1 a1 0 1 (by decide) (by decide)
    ((stage1 d1 a1).get ⟨0, by decide⟩)
    ((stage2 d1 a1).get ⟨0, by decide⟩)
    (by decide) (by decide) (by decide)

/-- A string shorter than a given left factor differs from the
concatenation. -/
theorem ne_long_append (t pre s : String) (h : t.length < pre.length) :
    t ≠ pre ++ s := by
  intro he
  have hl := congrArg String.length he
  rw [String.length_append] at hl
  omega

/-- Strings whose character lists differ at some index inside the left
factor are different. -/
theorem ne_append_of_get (t pre s : String) (i : Nat) (hi : i < pre.data.length)
    (h : ¬ t.data[i]? = pre.data[i]?) : t ≠ pre ++ s := by
  intro he
  apply h
  rw [he]
  have hd : (pre ++ s).data = pre.data ++ s.data := by
    cases pre
    cases s
    rfl
  rw [hd]
  exact List.getElem?_append_left hi

/-- Lower bound on the length of a rendered location. -/
theorem locStr_len (l : Loc) : 5 ≤ (locStr l).length := by
  cases l with
  | build => decide
  | cxxrtl sub =>
    show 5 ≤ ("cxxrtl" ++ _ : String).length
    rw [String.length_append]
    have h6 : ("cxxrtl" : String).length = 6 := rfl
    omega

/-- Lower bound on the length of a rendered root-relative path. -/
theorem pathStrRel_len (p : SPath) : 6 ≤ (pathStrRel p).length := by
  rw [pathStrRel, String.length_append, String.length_append,
    String.length_append]
  have h1 := locStr_len p.loc
  have h2 : ("/" : String).length = 1 := rfl
  omega

/-- A string shorter than seven characters is not a rendered path. -/
theorem ne_pathStr (t root : String) (p : SPath) (h : t.length < 7) :
    t ≠ pathStr root p := by
  intro he
  have hl := congrArg String.length he
  rw [pathStr, String.length_append, String.length_append] at hl
  have h1 := pathStrRel_len p
  have h2 : ("/" : String).length = 1 := rfl
  omega

/-- A short string is not the first include flag. -/
theorem ne_iflag1 (t root : String) (h : t.length < 8) :
    t ≠ "-I" ++ root ++ "/build" := by
  intro he
  have hl := congrArg String.length he
  rw [String.length_append, String.length_append] at hl
  have h1 : ("-I" : String).length = 2 := rfl
  have h2 : ("/build" : String).length = 6 := rfl
  omega

/-- A short string is not the second include flag. -/
theorem ne_iflag2 (t d : String) (h : t.length < 30) :
    t ≠ "-I" ++ d ++ "/include/backends/cxxrtl/runtime" := by
  intro he
  have hl := congrArg String.length he
  rw [String.length_append, String.length_append] at hl
  have h1 : ("-I" : String).length = 2 := rfl
  have h2 : 28 ≤ ("/include/backends/cxxrtl/runtime" : String).length := by decide
  omega

/-- Occurrence of the two optimization flags inside cxxflags. -/
theorem opt_mem_cxxflags (np : Driver) (args : Args) :
    ("-O3" ∈ cxxflags np args ↔ args.optimize.opt_rtl = true) ∧
    ("-O0" ∈ cxxflags np args ↔ args.optimize.opt_rtl = false) := by
  have hck3 : ("-O3" : String) ≠ "-DCLOCK_HZ=" ++ toString np.clk :=
    ne_long_append _ _ _ (by decide)
  have hck0 : ("-O0" : String) ≠ "-DCLOCK_HZ=" ++ toString np.clk :=
    ne_long_append _ _ _ (by decide)
  cases h1 : args.optimize.opt_rtl <;> cases h2 : args.debug <;>
    cases h3 : np.usesZig <;>
    simp [cxxflags, CXXFLAGS, h1, h2, h3, hck3, hck0]

/-- Membership of a short flag string in a compile command reduces to
membership in cxxflags. -/
theorem mem_compileCmd_iff (np : Driver) (args : Args) (cc o : SPath) (t : String)
    (ht : t.length < 7) (hz : t ≠ "zig") (hcpp : t ≠ "c++")
    (hc : t ≠ "-c") (ho : t ≠ "-o") :
    (t ∈ compileCmd np args cc o ↔ t ∈ cxxflags np args) := by
  have hp1 : t ≠ pathStr np.root cc := ne_pathStr _ _ _ ht
  have hp2 : t ≠ pathStr np.root o := ne_pathStr _ _ _ ht
  have hi1 : t ≠ "-I" ++ np.root ++ "/build" := ne_iflag1 _ _ (by omega)
  have hi2 : t ≠ "-I" ++ np.yosysDataDir ++ "/include/backends/cxxrtl/runtime" :=
    ne_iflag2 _ _ (by omega)
  cases h : np.usesZig <;>
    simp [compileCmd, includeFlags, h, hz, hcpp, hc, ho, hp1, hp2, hi1, hi2]

/-- Occurrence of the ReleaseFast define in the zig link command. -/
theorem relfast_mem_zigLinkCmd (np : Driver) (args : Args) :
    ("-Doptimize=ReleaseFast" ∈ zigLinkCmd np args ↔
      args.optimize.opt_app = true) := by
  have h1 : ("-Doptimize=ReleaseFast" : String) ≠ "-Dclock_hz=" ++ toString np.clk :=
    ne_append_of_get _ _ _ 2 (by decide) (by decide)
  have h2 : ("-Doptimize=ReleaseFast" : String) ≠
      "-Dyosys_data_dir=" ++ np.yosysDataDir :=
    ne_append_of_get _ _ _ 2 (by decide) (by decide)
  have h3 : ∀ p : SPath, ("-Doptimize=ReleaseFast" : String) ≠
      "-Dcxxrtl_o_path=../" ++ pathStrRel p :=
    fun p => ne_append_of_get _ _ _ 2 (by decide) (by decide)
  have h3r : ∀ p : SPath,
      ¬ ("-Dcxxrtl_o_path=../" ++ pathStrRel p = "-Doptimize=ReleaseFast") :=
    fun p e => h3 p e.symm
  cases h : args.optimize.opt_app <;>
    simp [zigLinkCmd, h, h1, h2, h3, h3r]

/-- Occurrence of the two optimization flags in the c++ link command. -/
theorem opt_mem_cppLinkCmd (np : Driver) (args : Args) :
    ("-O3" ∈ cppLinkCmd np args ↔ args.optimize.opt_rtl = true) ∧
    ("-O0" ∈ cppLinkCmd np args ↔ args.optimize.opt_rtl = false) := by
  have hx := opt_mem_cxxflags np args
  have hp3 : ∀ p : SPath, ("-O3" : String) ≠ pathStr np.root p :=
    fun p => ne_pathStr _ _ _ (by decide)
  have hp0 : ∀ p : SPath, ("-O0" : String) ≠ pathStr np.root p :=
    fun p => ne_pathStr _ _ _ (by decide)
  have hp3r : ∀ p : SPath, ¬ (pathStr np.root p = "-O3") :=
    fun p e => hp3 p e.symm
  have hp0r : ∀ p : SPath, ¬ (pathStr np.root p = "-O0") :=
    fun p e => hp0 p e.symm
  constructor
  · rw [← hx.1]
    simp [cppLinkCmd, hp3, hp3r]
  · rw [← hx.2]
    simp [cppLinkCmd, hp0, hp0r]

/-- Claim C6, amended: the optimize option decides the -O3 or -O0 flag
of every compile action's argv and of the c++ link argv (which reuses
the compile flag list), and the ReleaseFast define of the zig link argv;
apart from these argument lists nothing registered depends on it: the
inputs, outputs, working directories and force flags of every action,
the elaboration action, and the direct-run step are all unchanged when
optimize varies. -/
theorem c6_optimize (np : Driver) (args : Args) :
    (∀ a ∈ stage2 np args, ∃ cc o, a.op = .proc (compileCmd np args cc o)) ∧
    (∀ cc o : SPath,
      ("-O3" ∈ compileCmd np args cc o ↔ args.optimize.opt_rtl = true) ∧
      ("-O0" ∈ compileCmd np args cc o ↔ args.optimize.opt_rtl = false)) ∧
    ("-Doptimize=ReleaseFast" ∈ zigLinkCmd np args ↔
      args.optimize.opt_app = true) ∧
    (("-O3" ∈ cppLinkCmd np args ↔ args.optimize.opt_rtl = true) ∧
      ("-O0" ∈ cppLinkCmd np args ↔ args.optimize.opt_rtl = false)) ∧
    (∀ o1 o2 : _Optimize,
      shapes np {args with optimize := o1} = shapes np {args with optimize := o2} ∧
      stage1 np {args with optimize := o1} = stage1 np {args with optimize := o2} ∧
      directRuns np {args with optimize := o1} =
        directRuns np {args with optimize := o2}) := by
  refine ⟨?_, ?_, relfast_mem_zigLinkCmd np args, opt_mem_cppLinkCmd np args, ?_⟩
  · intro a ha
    simp only [stage2, List.mem_map] at ha
    obtain ⟨x, hx, rfl⟩ := ha
    exact ⟨x.1, x.2.1, rfl⟩
  · intro cc o
    have h3 := mem_compileCmd_iff np args cc o "-O3" (by decide) (by decide)
      (by decide) (by decide) (by decide)
    have h0 := mem_compileCmd_iff np args cc o "-O0" (by decide) (by decide)
      (by decide) (by decide) (by decide)
    rw [h3, h0]
    exact opt_mem_cxxflags np args
  · intro o1 o2
    cases args
    refine ⟨?_, rfl, rfl⟩
    simp [shapes, batches, stage1, stage2, stage3, shape]
    cases np.usesZig <;> simp [shape]

/-- Counterexample for C6 as stated: with a non-zig platform the
registered link action itself changes with the optimize option, so the
option does not only affect the compile argvs and the zig link argv. -/
theorem c6_counterexample :
    cppLinkCmd d1 ⟨"T", false, _Optimize.none, false, Option.none, false⟩ ≠
      cppLinkCmd d1 ⟨"T", false, _Optimize.rtl, false, Option.none, false⟩ ∧
    stage3 d1 ⟨"T", false, _Optimize.none, false, Option.none, false⟩ ≠
      stage3 d1 ⟨"T", false, _Optimize.rtl, false, Option.none, false⟩ := by
  decide

/-- Witness for C6 at the concrete driver d1. -/
theorem c6_witness :
    ("-O3" ∈ compileCmd d1 a1 (cxxrtlCcPath d1) exePath ↔
      a1.optimize.opt_rtl = true) ∧
    ("-O0" ∈ compileCmd d1 a1 (cxxrtlCcPath d1) exePath ↔
      a1.optimize.opt_rtl = false) :=
  (c6_optimize d1 a1).2.1 (cxxrtlCcPath d1) exePath

/-- Lookup on a freshly extended association list. -/
theorem lookupA_cons {β : Type} (l : List (SPath × β)) (q : SPath) (v : β)
    (p : SPath) :
    lookupA ((q, v) :: l) p = if q = p then some v else lookupA l p := by
  by_cases h : q = p <;> simp [lookupA, List.find?, h]

/-- Execution writes the output's modification time. -/
theorem fsGet_execA_self (s : CRState) (a : Action) :
    fsGet (execA s a) a.outf = some s.now := by
  simp [fsGet, execA, lookupA_cons]

/-- Execution leaves other filesystem entries unchanged. -/
theorem fsGet_execA_ne (s : CRState) (a : Action) (p : SPath)
    (h : a.outf ≠ p) : fsGet (execA s a) p = fsGet s p := by
  simp [fsGet, execA, lookupA_cons, h]

/-- Execution writes the output's Run Record entry. -/
theorem recGet_execA_self (s : CRState) (a : Action) :
    recGet (execA s a) a.outf =
      some ⟨fingerprints ((a.outf, s.now) :: s.fs) a.infs⟩ := by
  simp [recGet, execA, lookupA_cons]

/-- Execution leaves other Run Record entries unchanged. -/
theorem recGet_execA_ne (s : CRState) (a : Action) (p : SPath)
    (h : a.outf ≠ p) : recGet (execA s a) p = recGet s p := by
  simp [recGet, execA, lookupA_cons, h]

/-- One executor step leaves filesystem entries other than the action's
output unchanged. -/
theorem fsGet_stepA_ne (s : CRState) (a : Action) (p : SPath)
    (h : a.outf ≠ p) : fsGet (stepA s a) p = fsGet s p := by
  unfold stepA
  split
  · exact fsGet_execA_ne s a p h
  · rfl

/-- One executor step leaves Run Record entries other than the action's
output unchanged. -/
theorem recGet_stepA_ne (s : CRState) (a : Action) (p : SPath)
    (h : a.outf ≠ p) : recGet (stepA s a) p = recGet s p := by
  unfold stepA
  split
  · exact recGet_execA_ne s a p h
  · rfl

/-- A whole run leaves filesystem entries untouched when no action of
the stage outputs to them. -/
theorem fsGet_runA_ne (stage : List Action) (s : CRState) (p : SPath)
    (h : ∀ b ∈ stage, b.outf ≠ p) : fsGet (runA s stage) p = fsGet s p := by
  induction stage generalizing s with
  | nil => rfl
  | cons a rest ih =>
    simp only [runA]
    rw [ih (stepA s a) (fun b hb => h b (List.mem_cons_of_mem a hb)),
      fsGet_stepA_ne s a p (h a (List.mem_cons_self a rest))]

/-- A whole run leaves Run Record entries untouched when no action of
the stage outputs to them. -/
theorem recGet_runA_ne (stage : List Action) (s : CRState) (p : SPath)
    (h : ∀ b ∈ stage, b.outf ≠ p) : recGet (runA s stage) p = recGet s p := by
  induction stage generalizing s with
  | nil => rfl
  | cons a rest ih =>
    simp only [runA]
    rw [ih (stepA s a) (fun b hb => h b (List.mem_cons_of_mem a hb)),
      recGet_stepA_ne s a p (h a (List.mem_cons_self a rest))]

/-- Execution preserves the clock invariant: every recorded modification
time is in the past. -/
theorem inv_execA (s : CRState) (a : Action)
    (h : ∀ e ∈ s.fs, e.2 < s.now) :
    ∀ e ∈ (execA s a).fs, e.2 < (execA s a).now := by
  intro e he
  simp only [execA] at he ⊢
  rcases List.mem_cons.mp he with rfl | he2
  · omega
  · have := h e he2
    omega

/-- One executor step preserves the clock invariant. -/
theorem inv_stepA (s : CRState) (a : Action)
    (h : ∀ e ∈ s.fs, e.2 < s.now) :
    ∀ e ∈ (stepA s a).fs, e.2 < (stepA s a).now := by
  unfold stepA
  split
  · exact inv_execA s a h
  · exact h

/-- Pointwise equal boolean predicates agree on all. -/
theorem all_congr_mem {α : Type} {l : List α} {f g : α → Bool}
    (h : ∀ x ∈ l, f x = g x) : l.all f = l.all g := by
  induction l with
  | nil => rfl
  | cons a as ih =>
    simp only [List.all_cons]
    rw [h a (List.mem_cons_self a as),
      ih (fun x hx => h x (List.mem_cons_of_mem a hx))]

/-- Pointwise equal boolean predicates agree on any. -/
theorem any_congr_mem {α : Type} {l : List α} {f g : α → Bool}
    (h : ∀ x ∈ l, f x = g x) : l.any f = l.any g := by
  induction l with
  | nil => rfl
  | cons a as ih =>
    simp only [List.any_cons]
    rw [h a (List.mem_cons_self a as),
      ih (fun x hx => h x (List.mem_cons_of_mem a hx))]

/-- A predicate true on every member makes all true. -/
theorem all_true_of_mem {α : Type} {l : List α} {f : α → Bool}
    (h : ∀ x ∈ l, f x = true) : l.all f = true := by
  induction l with
  | nil => rfl
  | cons a as ih =>
    simp only [List.all_cons, Bool.and_eq_true]
    exact ⟨h a (List.mem_cons_self a as),
      ih (fun x hx => h x (List.mem_cons_of_mem a hx))⟩

/-- A predicate false on every member makes any false. -/
theorem any_false_of_mem {α : Type} {l : List α} {f : α → Bool}
    (h : ∀ x ∈ l, f x = false) : l.any f = false := by
  induction l with
  | nil => rfl
  | cons a as ih =>
    simp only [List.any_cons, Bool.or_eq_false_iff]
    exact ⟨h a (List.mem_cons_self a as),
      ih (fun x hx => h x (List.mem_cons_of_mem a hx))⟩

/-- Staleness of an action only depends on the state's view of the
action's output and inputs. -/
theorem isStale_congr (s₁ s₂ : CRState) (a : Action)
    (h1 : fsGet s₁ a.outf = fsGet s₂ a.outf)
    (h2 : recGet s₁ a.outf = recGet s₂ a.outf)
    (h3 : ∀ p ∈ a.infs, fsGet s₁ p = fsGet s₂ p) :
    isStale s₁ a = isStale s₂ a := by
  unfold isStale
  rw [h1, h2]
  cases hx : fsGet s₂ a.outf with
  | none => rfl
  | some tOut =>
    cases hy : recGet s₂ a.outf with
    | none => rfl
    | some e =>
      have hall : a.infs.all
            (fun p => decide (fpLookup e.fps p = some (fsGet s₁ p)))
          = a.infs.all
            (fun p => decide (fpLookup e.fps p = some (fsGet s₂ p))) :=
        all_congr_mem (fun p hp => by rw [h3 p hp])
      have hany : (a.infs.any (fun p =>
            match fsGet s₁ p with
            | some tIn => decide (tOut < tIn)
            | Option.none => false))
          = a.infs.any (fun p =>
            match fsGet s₂ p with
            | some tIn => decide (tOut < tIn)
            | Option.none => false) :=
        any_congr_mem (fun p hp => by rw [h3 p hp])
      dsimp only
      rw [hall, hany]

/-- Lookup on a freshly extended fingerprint list. -/
theorem fpLookup_cons (l : List (SPath × Option Nat)) (q : SPath)
    (v : Option Nat) (p : SPath) :
    fpLookup ((q, v) :: l) p = if q = p then some v else fpLookup l p := by
  by_cases h : q = p <;> simp [fpLookup, List.find?, h]

/-- The recorded fingerprint list of an exec step looks up to the
current filesystem fingerprint of each declared input. -/
theorem fpLookup_fingerprints (fs : List (SPath × Nat)) (infs : List SPath)
    (p : SPath) (hp : p ∈ infs) :
    fpLookup (fingerprints fs infs) p = some (lookupA fs p) := by
  induction infs with
  | nil => cases hp
  | cons q rest ih =>
    have hstep : fingerprints fs (q :: rest)
        = (q, lookupA fs q) :: fingerprints fs rest := rfl
    by_cases h : q = p
    · subst h
      rw [hstep, fpLookup_cons, if_pos rfl]
    · have hp2 : p ∈ rest := by
        rcases List.mem_cons.mp hp with rfl | h2
        · exact absurd rfl h
        · exact h2
      rw [hstep, fpLookup_cons, if_neg h]
      exact ih hp2

/-- The path components of a fingerprint list are the inputs. -/
theorem fingerprints_map_fst (fs : List (SPath × Nat)) (infs : List SPath) :
    (fingerprints fs infs).map (fun x => x.1) = infs := by
  induction infs with
  | nil => rfl
  | cons q rest ih =>
    have hstep : fingerprints fs (q :: rest)
        = (q, lookupA fs q) :: fingerprints fs rest := rfl
    rw [hstep, List.map_cons, ih]

/-- Path-set comparison is reflexive. -/
theorem sameSetB_self (l : List SPath) : sameSetB l l = true := by
  simp only [sameSetB, Bool.and_eq_true]
  constructor <;>
    exact all_true_of_mem (fun p hp => by
      simp only [List.any_eq_true]
      exact ⟨p, hp, by simp⟩)

/-- Looked-up values come from list membership. -/
theorem lookupA_mem {β : Type} (l : List (SPath × β)) (p : SPath) (v : β)
    (h : lookupA l p = some v) : (p, v) ∈ l := by
  unfold lookupA at h
  cases hf : l.find? (fun e => decide (e.1 = p)) with
  | none => rw [hf] at h; cases h
  | some e =>
    rw [hf] at h
    have hm := List.mem_of_find?_eq_some hf
    have hp0 := List.find?_some hf
    have hp1 : e.1 = p := by simpa using hp0
    cases h
    rw [← hp1]
    simpa using hm

/-- A forced action is always Stale: staleness is the force flag joined
with the force-independent part. -/
theorem isStale_force_split (s : CRState) (a : Action) :
    isStale s a = (a.force || isStale s {a with force := false}) := by
  cases a with
  | mk op infs outf chdir force =>
    unfold isStale
    simp [Bool.or_assoc]

/-- Dropping the force flag of an unforced action changes nothing. -/
theorem action_force_false_eta (b : Action) (h : b.force = false) :
    ({b with force := false} : Action) = b := by
  cases b with
  | mk op infs outf chdir force =>
    simp only at h
    rw [h]

/-- Once an action has been stepped, its unforced form is Fresh: the
step either skipped a Fresh action or executed it and updated the Run
Record with matching fingerprints. -/
theorem fresh_after_step (s : CRState) (a : Action)
    (hInv : ∀ e ∈ s.fs, e.2 < s.now) (hself : a.outf ∉ a.infs) :
    isStale (stepA s a) {a with force := false} = false := by
  by_cases hs : isStale s a = true
  · rw [stepA, if_pos hs]
    have houtf : ({a with force := false} : Action).outf = a.outf := rfl
    have hinfs : ({a with force := false} : Action).infs = a.infs := rfl
    have hforce : ({a with force := false} : Action).force = false := rfl
    unfold isStale
    rw [houtf, hinfs, hforce, fsGet_execA_self, recGet_execA_self]
    have hM : sameSetB
        ((fingerprints ((a.outf, s.now) :: s.fs) a.infs).map (fun x => x.1))
        a.infs = true := by
      rw [fingerprints_map_fst]
      exact sameSetB_self _
    have hA : a.infs.all (fun p =>
        decide (fpLookup (fingerprints ((a.outf, s.now) :: s.fs) a.infs) p =
          some (fsGet (execA s a) p))) = true := by
      refine all_true_of_mem (fun p hp => ?_)
      rw [fpLookup_fingerprints _ _ p hp]
      simp [fsGet, execA]
    have hY : a.infs.any (fun p =>
        match fsGet (execA s a) p with
        | some tIn => decide (s.now < tIn)
        | Option.none => false) = false := by
      refine any_false_of_mem (fun p hp => ?_)
      have hne : a.outf ≠ p := fun e => hself (e ▸ hp)
      rw [fsGet_execA_ne s a p hne]
      cases hfp : fsGet s p with
      | none => rfl
      | some tIn =>
        have hmem := lookupA_mem s.fs p tIn hfp
        have hlt := hInv (p, tIn) hmem
        simp only [decide_eq_false_iff_not]
        omega
    dsimp only
    rw [hM, hA, hY]
    rfl
  · have hs2 : isStale s a = false := by
      cases h : isStale s a
      · rfl
      · exact absurd h hs
    rw [stepA, if_neg (by rw [hs2]; exact Bool.false_ne_true)]
    rw [isStale_force_split] at hs2
    exact (Bool.or_eq_false_iff.mp hs2).2

/-- After one run of an independent stage with pairwise distinct
outputs and no forced action, every action of the stage is Fresh. -/
theorem all_fresh_after_run (stage : List Action) (s : CRState)
    (hInv : ∀ e ∈ s.fs, e.2 < s.now)
    (hforce : ∀ a ∈ stage, a.force = false)
    (hindep : ∀ a ∈ stage, ∀ b ∈ stage, a.outf ∉ b.infs)
    (hout : (stage.map Action.outf).Nodup) :
    ∀ a ∈ stage, isStale (runA s stage) a = false := by
  induction stage generalizing s with
  | nil => intro a ha; cases ha
  | cons a rest ih =>
    intro b hb
    simp only [runA]
    rcases List.mem_cons.mp hb with rfl | hbr
    · have hnotin : b.outf ∉ rest.map Action.outf :=
        (List.nodup_cons.mp hout).1
      have hne : ∀ c ∈ rest, c.outf ≠ b.outf := fun c hc e =>
        hnotin (e ▸ List.mem_map_of_mem Action.outf hc)
      have hpres1 : fsGet (runA (stepA s b) rest) b.outf
          = fsGet (stepA s b) b.outf :=
        fsGet_runA_ne rest _ _ hne
      have hpres2 : recGet (runA (stepA s b) rest) b.outf
          = recGet (stepA s b) b.outf :=
        recGet_runA_ne rest _ _ hne
      have hpres3 : ∀ p ∈ b.infs,
          fsGet (runA (stepA s b) rest) p = fsGet (stepA s b) p := by
        intro p hp
        refine fsGet_runA_ne rest _ p (fun c hc e => ?_)
        exact hindep c (List.mem_cons_of_mem b hc) b
          (List.mem_cons_self b rest) (e ▸ hp)
      rw [isStale_congr _ _ b hpres1 hpres2 hpres3]
      have hb_force : b.force = false := hforce b (List.mem_cons_self b rest)
      have hres := fresh_after_step s b hInv
        (hindep b (List.mem_cons_self b rest) b (List.mem_cons_self b rest))
      rw [action_force_false_eta b hb_force] at hres
      exact hres
    · exact ih (stepA s a)
        (inv_stepA s a hInv)
        (fun x hx => hforce x (List.mem_cons_of_mem a hx))
        (fun x hx y hy => hindep x (List.mem_cons_of_mem a hx) y
          (List.mem_cons_of_mem a hy))
        (List.nodup_cons.mp hout).2
        b hbr

/-- A run over a stage of Fresh actions is the identity and executes
nothing. -/
theorem run_id_of_fresh (stage : List Action) (s : CRState)
    (h : ∀ a ∈ stage, isStale s a = false) :
    runA s stage = s ∧ execCount s stage = 0 := by
  induction stage with
  | nil => exact ⟨rfl, rfl⟩
  | cons a rest ih =>
    have ha : isStale s a = false := h a (List.mem_cons_self a rest)
    have hstep : stepA s a = s := by
      rw [stepA, if_neg (by rw [ha]; exact Bool.false_ne_true)]
    have hrest := ih (fun b hb => h b (List.mem_cons_of_mem a hb))
    constructor
    · simp only [runA]
      rw [hstep]
      exact hrest.1
    · simp only [execCount]
      rw [hstep, if_neg (by rw [ha]; exact Bool.false_ne_true)]
      rw [hrest.2]

/-- Claim C7: running the same stage twice with no filesystem changes in
between executes zero actions the second time: every action of the
repeated stage is judged Fresh and the second run has no side effects.
The hypotheses are the spec's standing assumptions on a stage: actions
of one stage are independent, outputs are pairwise distinct, no action
is forced, and recorded modification times lie in the past. -/
theorem c7_idempotence (s : CRState) (stage : List Action)
    (hInv : ∀ e ∈ s.fs, e.2 < s.now)
    (hforce : ∀ a ∈ stage, a.force = false)
    (hindep : ∀ a ∈ stage, ∀ b ∈ stage, a.outf ∉ b.infs)
    (hout : (stage.map Action.outf).Nodup) :
    (∀ a ∈ stage, isStale (runA s stage) a = false) ∧
    execCount (runA s stage) stage = 0 ∧
    runA (runA s stage) stage = runA s stage := by
  have hfresh := all_fresh_after_run stage s hInv hforce hindep hout
  have hrun := run_id_of_fresh stage (runA s stage) hfresh
  exact ⟨hfresh, hrun.2, hrun.1⟩

/-- Claim C3: the force flag of the command line is attached to every
action registered through the orchestrator; a forced action is Stale in
every state, and the step executing it updates the Run Record so that
its unforced form is Fresh afterwards. -/
theorem c3_force_bypass (np : Driver) (args : Args) (hf : args.force = true) :
    (∀ st ∈ batches np args, ∀ a ∈ st, a.force = true) ∧
    (∀ (s : CRState) (a : Action), a.force = true → isStale s a = true) ∧
    (∀ (s : CRState) (a : Action), (∀ e ∈ s.fs, e.2 < s.now) →
      a.outf ∉ a.infs →
      isStale (stepA s a) {a with force := false} = false) := by
  refine ⟨?_, ?_, ?_⟩
  · intro st hst a ha
    simp only [batches, List.mem_cons, List.not_mem_nil, or_false] at hst
    rcases hst with rfl | rfl | rfl
    · simp only [stage1, List.mem_singleton] at ha
      subst ha
      exact hf
    · simp only [stage2, List.mem_map] at ha
      obtain ⟨x, hx, rfl⟩ := ha
      exact hf
    · simp only [stage3] at ha
      cases h : np.usesZig <;> rw [h] at ha <;> simp at ha <;> subst ha <;>
        exact hf
  · intro s a hforce
    rw [isStale_force_split s a, hforce]
    rfl
  · intro s a hInv hself
    exact fresh_after_step s a hInv hself

/-- Witness for C3: a forced action is Stale even in the empty state. -/
theorem c3_witness :
    isStale ⟨0, [], []⟩ ⟨Op.call, [], ilPath d1, Option.none, true⟩ = true :=
  (c3_force_bypass d1 ⟨"T", false, _Optimize.rtl, false, Option.none, true⟩
      rfl).2.1
    ⟨0, [], []⟩ ⟨Op.call, [], ilPath d1, Option.none, true⟩ rfl

/-- Witness for C7: a one-action stage over a one-file filesystem is
Fresh on the second run, which executes nothing and changes nothing. -/
theorem c7_witness :
    (∀ a ∈ [(⟨Op.call, [ilPath d1], cxxrtlCcPath d1, Option.none, false⟩ : Action)],
      isStale (runA ⟨1, [(ilPath d1, 0)], []⟩
        [⟨Op.call, [ilPath d1], cxxrtlCcPath d1, Option.none, false⟩]) a = false) ∧
    execCount (runA ⟨1, [(ilPath d1, 0)], []⟩
        [⟨Op.call, [ilPath d1], cxxrtlCcPath d1, Option.none, false⟩])
      [⟨Op.call, [ilPath d1], cxxrtlCcPath d1, Option.none, false⟩] = 0 ∧
    runA (runA ⟨1, [(ilPath d1, 0)], []⟩
        [⟨Op.call, [ilPath d1], cxxrtlCcPath d1, Option.none, false⟩])
      [⟨Op.call, [ilPath d1], cxxrtlCcPath d1, Option.none, false⟩]
      = runA ⟨1, [(ilPath d1, 0)], []⟩
        [⟨Op.call, [ilPath d1], cxxrtlCcPath d1, Option.none, false⟩] :=
  c7_idempotence ⟨1, [(ilPath d1, 0)], []⟩
    [⟨Op.call, [ilPath d1], cxxrtlCcPath d1, Option.none, false⟩]
    (by decide) (by decide) (by decide) (by decide)

end Niar
